import Mathlib

/-!
Verification development for the x2md content-rendering core.

The definitions below are a shallow embedding of the Go source:
  - the Draft.js block renderer (DraftJSToMarkdown and its helpers),
  - the FlexInt JSON key decoder,
  - the regex-pipeline HTML-to-Markdown converter (HTMLToMarkdown).

Strings are modelled as Lean `String`/`List Char` (Go iterates code points
via `[]rune`); Go `int` values are modelled as `Int` (no arithmetic in the
verified code approaches the 64-bit boundary, so overflow is immaterial).
-/

namespace X2MD

/-! ## Data model (source: unnamed/part_001) -/

/-- Go struct InlineStyleRange: offset/length are Go ints (may be negative
or out of range in malformed input), style is a string. -/
structure InlineStyleRange where
  offset : Int
  length : Int
  style : String
deriving Repr, DecidableEq

/-- Go struct EntityRange (key references the entity map). -/
structure EntityRange where
  key : Int
  offset : Int
  length : Int
deriving Repr, DecidableEq

/-- Go struct EntityMediaRef. -/
structure EntityMediaRef where
  localMediaID : String
  mediaID : String
deriving Repr, DecidableEq

/-- Go struct EntityData. -/
structure EntityData where
  entityKey : String
  mediaItems : List EntityMediaRef
  url : String
deriving Repr, DecidableEq

/-- Go struct EntityValue. -/
structure EntityValue where
  type : String
  mutability : String
  data : EntityData
deriving Repr, DecidableEq

/-- Go struct EntityMapItem; the FlexInt key is modelled as Int. -/
structure EntityMapItem where
  key : Int
  value : EntityValue
deriving Repr, DecidableEq

/-- Go struct Block. -/
structure Block where
  key : String
  text : String
  type : String
  inlineStyleRanges : List InlineStyleRange
  entityRanges : List EntityRange
deriving Repr, DecidableEq

/-- Go struct MediaInfo. -/
structure MediaInfo where
  typeName : String
  originalImgURL : String
  originalImgWidth : Int
  originalImgHeight : Int
deriving Repr, DecidableEq

/-- Go struct ArticleMedia; the nilable pointer MediaInfo is an Option. -/
structure ArticleMedia where
  id : String
  mediaKey : String
  mediaID : String
  mediaInfo : Option MediaInfo
deriving Repr, DecidableEq

/-- Go struct ArticleContent. -/
structure ArticleContent where
  blocks : List Block
  entityMap : List EntityMapItem
deriving Repr, DecidableEq

/-! ## Go standard-library helpers used by the renderer -/

/-- Whitespace class used by Go strings.TrimSpace (unicode.IsSpace),
restricted to the Latin-1 range, which covers every character these
renderers produce. -/
def isGoSpace (c : Char) : Bool :=
  c = ' ' || c = '\t' || c = '\n' || c = (Char.ofNat 11) || c = (Char.ofNat 12) ||
  c = '\r' || c = (Char.ofNat 0x85) || c = (Char.ofNat 0xA0)

/-- Go strings.TrimSpace on a rune list. -/
def goTrimSpaceL (l : List Char) : List Char :=
  ((l.dropWhile isGoSpace).reverse.dropWhile isGoSpace).reverse

/-- Go strings.TrimSpace. -/
def goTrimSpace (s : String) : String :=
  String.mk (goTrimSpaceL s.data)

/-! ## InlineStyleFlattener (source: unnamed/part_003, applyInlineStyles) -/

/-- Go func styleMarker: the Markdown marker for a style name
(the switch lists both capitalized and all-caps spellings). -/
def styleMarker (style : String) : String :=
  if style = "Bold" ∨ style = "BOLD" then "**"
  else if style = "Italic" ∨ style = "ITALIC" then "*"
  else if style = "Code" ∨ style = "CODE" then "`"
  else ""

/-- Go struct styleRange: a style boundary event. -/
structure StyleEvent where
  pos : Int
  style : String
  start : Bool
deriving Repr, DecidableEq

/-- Event construction of applyInlineStyles: each range yields an open
event at its offset and a close event at offset+length clamped from above
to n (and only from above; a negative position is kept as is). -/
def buildEvents (styles : List InlineStyleRange) (n : Nat) : List StyleEvent :=
  styles.flatMap fun s =>
    let e := if s.offset + s.length > (n : Int) then (n : Int) else s.offset + s.length
    [⟨s.offset, s.style, true⟩, ⟨e, s.style, false⟩]

/-- The comparison closure passed to sort.Slice in applyInlineStyles:
by position ascending, and at equal positions close events come first. -/
def evLT (a b : StyleEvent) : Bool :=
  if a.pos ≠ b.pos then a.pos < b.pos
  else if a.start ≠ b.start then !a.start
  else false

/-- The non-strict order induced by the sort comparator. -/
def evLE (a b : StyleEvent) : Prop := evLT b a = false

instance : DecidableRel evLE := fun a b => instDecidableEqBool (evLT b a) false

/-- The sort step of applyInlineStyles. Go uses sort.Slice (an unstable
sort); this embedding fixes one comparator-consistent order via insertion
sort. None of the verified properties depend on the order of events that
compare equal under the comparator. -/
def sortEvents (evs : List StyleEvent) : List StyleEvent :=
  List.insertionSort evLE evs

/-- The inner loop of the emission sweep: consume the consecutive run of
events whose position equals the cursor, returning their markers and the
remaining events. -/
def consumeAt (pos : Int) : List StyleEvent → List String × List StyleEvent
  | [] => ([], [])
  | e :: es =>
    if e.pos = pos then
      let r := consumeAt pos es
      (styleMarker e.style :: r.1, r.2)
    else ([], e :: es)

/-- One output token of the emission sweep: either an inserted style
marker or one code point of the original text. -/
inductive MDToken where
  | mark (s : String)
  | chr (c : Char)
deriving Repr, DecidableEq

/-- The emission sweep of applyInlineStyles: positions 0..n inclusive; at
each position all events whose position matches the cursor are emitted,
then the code point at that position (when one remains). -/
def emitTokens : Int → List Char → List StyleEvent → List MDToken
  | pos, [], evs => ((consumeAt pos evs).1).map MDToken.mark
  | pos, c :: cs, evs =>
    let r := consumeAt pos evs
    (r.1.map MDToken.mark) ++ (MDToken.chr c :: emitTokens (pos + 1) cs r.2)

/-- Flatten the token stream to the characters the strings.Builder
receives. -/
def renderTokens (ts : List MDToken) : List Char :=
  ts.flatMap fun t =>
    match t with
    | .mark s => s.data
    | .chr c => [c]

/-- The token stream applyInlineStyles produces for a text and ranges. -/
def applyTokens (text : String) (styles : List InlineStyleRange) : List MDToken :=
  emitTokens 0 text.data (sortEvents (buildEvents styles text.data.length))

/-- Go func applyInlineStyles (source: unnamed/part_003 lines 153-203). -/
def applyInlineStyles (text : String) (styles : List InlineStyleRange) : String :=
  if styles = [] then text
  else String.mk (renderTokens (applyTokens text styles))

/-- The characters of a token stream once every inserted marker is
deleted. -/
def tokenChars (ts : List MDToken) : List Char :=
  ts.filterMap fun t =>
    match t with
    | .chr c => some c
    | .mark _ => none

/-! ## Media and entity lookups (source: unnamed/part_003) -/

/-- Go func buildMediaLookup: a map from mediaId to image URL, built by
plain map insertion over the flat list; entries whose MediaInfo pointer is
nil or whose OriginalImgURL is empty are skipped. The Go map is modelled
as a function to Option. -/
def buildMediaLookup (entities : List ArticleMedia) : String → Option String :=
  entities.foldl
    (fun lookup e =>
      match e.mediaInfo with
      | some mi =>
        if mi.originalImgURL ≠ "" then
          fun x => if x = e.mediaID then some mi.originalImgURL else lookup x
        else lookup
      | none => lookup)
    (fun _ => none)

/-- The entity-map lookup built at the top of DraftJSToMarkdown:
key -> EntityValue by plain map insertion. -/
def buildEntityLookup (items : List EntityMapItem) : Int → Option EntityValue :=
  items.foldl
    (fun lookup item =>
      fun k => if k = item.key then some item.value else lookup k)
    (fun _ => none)

/-- Go func renderMediaEntity: one Markdown image per media reference that
resolves in the media lookup, joined by blank lines; references with no
match are skipped. -/
def renderMediaEntity (entity : EntityValue) (mediaLookup : String → Option String) :
    String :=
  let images := entity.data.mediaItems.filterMap fun ref =>
    (mediaLookup ref.mediaID).map fun url => "![image](" ++ url ++ ")"
  String.intercalate "\n\n" images

/-- The range-scanning loop of renderAtomicBlock: an unresolved key falls
to the next range; a resolved key of type MEDIA or DIVIDER returns; a
resolved key of any other type falls out of the switch and the loop
continues. -/
def scanEntityRanges (entityLookup : Int → Option EntityValue)
    (mediaLookup : String → Option String) : List EntityRange → String
  | [] => ""
  | er :: rest =>
    match entityLookup er.key with
    | none => scanEntityRanges entityLookup mediaLookup rest
    | some entity =>
      if entity.type = "MEDIA" then renderMediaEntity entity mediaLookup
      else if entity.type = "DIVIDER" then "---"
      else scanEntityRanges entityLookup mediaLookup rest

/-- Go func renderAtomicBlock (source: unnamed/part_003 lines 117-132). -/
def renderAtomicBlock (block : Block) (entityLookup : Int → Option EntityValue)
    (mediaLookup : String → Option String) : String :=
  scanEntityRanges entityLookup mediaLookup block.entityRanges

/-! ## BlockDocumentRenderer (source: unnamed/part_003, DraftJSToMarkdown) -/

/-- One iteration of the block loop in DraftJSToMarkdown: the part
appended for this block (none when an atomic block renders empty) and the
new ordered-list counter. -/
def renderBlock (el : Int → Option EntityValue) (ml : String → Option String)
    (olCounter : Nat) (b : Block) : Option String × Nat :=
  if b.type = "header-one" then
    (some ("# " ++ applyInlineStyles b.text b.inlineStyleRanges), 0)
  else if b.type = "header-two" then
    (some ("## " ++ applyInlineStyles b.text b.inlineStyleRanges), 0)
  else if b.type = "header-three" then
    (some ("### " ++ applyInlineStyles b.text b.inlineStyleRanges), 0)
  else if b.type = "header-four" then
    (some ("#### " ++ applyInlineStyles b.text b.inlineStyleRanges), 0)
  else if b.type = "header-five" then
    (some ("##### " ++ applyInlineStyles b.text b.inlineStyleRanges), 0)
  else if b.type = "header-six" then
    (some ("###### " ++ applyInlineStyles b.text b.inlineStyleRanges), 0)
  else if b.type = "blockquote" then
    let text := applyInlineStyles b.text b.inlineStyleRanges
    let quoted := (text.splitOn "\n").map fun line => "> " ++ line
    (some (String.intercalate "\n" quoted), 0)
  else if b.type = "unordered-list-item" then
    (some ("- " ++ applyInlineStyles b.text b.inlineStyleRanges), 0)
  else if b.type = "ordered-list-item" then
    (some (toString (olCounter + 1) ++ ". " ++ applyInlineStyles b.text b.inlineStyleRanges),
      olCounter + 1)
  else if b.type = "code-block" then
    (some ("```\n" ++ b.text ++ "\n```"), 0)
  else if b.type = "atomic" then
    let rendered := renderAtomicBlock b el ml
    (if rendered = "" then none else some rendered, 0)
  else
    (if goTrimSpace b.text = "" then some ""
     else some (applyInlineStyles b.text b.inlineStyleRanges), 0)

/-- The block loop of DraftJSToMarkdown, threading the ordered-list
counter and accumulating the parts list. -/
def processBlocks (el : Int → Option EntityValue) (ml : String → Option String) :
    List Block → Nat → List String
  | [], _ => []
  | b :: bs, ol =>
    match renderBlock el ml ol b with
    | (some s, ol') => s :: processBlocks el ml bs ol'
    | (none, ol') => processBlocks el ml bs ol'

/-- Go func DraftJSToMarkdown (source: unnamed/part_003 lines 10-103);
the nilable content pointer is an Option. -/
def DraftJSToMarkdown (content : Option ArticleContent)
    (mediaEntities : List ArticleMedia) : String :=
  match content with
  | none => ""
  | some c =>
    if c.blocks = [] then ""
    else
      let mediaLookup := buildMediaLookup mediaEntities
      let entityLookup := buildEntityLookup c.entityMap
      goTrimSpace (String.intercalate "\n\n" (processBlocks entityLookup mediaLookup c.blocks 0))

/-- The ordered-list counter value after a list of blocks, starting from
a given value: reset to 0 by every non-ordered-list block, incremented by
each ordered-list-item. -/
def olAfter : List Block → Nat → Nat
  | [], c => c
  | b :: bs, c => olAfter bs (if b.type = "ordered-list-item" then c + 1 else 0)

/-- The number of immediately preceding consecutive ordered-list-item
blocks at the end of a list: the length of its maximal all-ordered
suffix. -/
def trailingOlRun (bs : List Block) : Nat :=
  (bs.reverse.takeWhile fun b => b.type = "ordered-list-item").length

/-! ## FlexInt key decoding (source: unnamed/part_001, FlexInt.UnmarshalJSON) -/

/-- Digit-run parser shared by the JSON-number, Atoi and entity models:
a non-empty run of decimal digits and nothing else. Leading zeros are
accepted here; the JSON grammar layer rejects them separately. -/
def parseDigits (l : List Char) : Option Nat :=
  if l = [] then none
  else if l.all fun c => c.isDigit then
    some (l.foldl (fun acc c => acc * 10 + (c.toNat - '0'.toNat)) 0)
  else none

/-- JSON whitespace as accepted by encoding/json around a top-level
value: space, tab, newline, carriage return. -/
def isJSONws (c : Char) : Bool := c = ' ' || c = '\t' || c = '\n' || c = '\r'

def trimJSONws (l : List Char) : List Char :=
  ((l.dropWhile isJSONws).reverse.dropWhile isJSONws).reverse

/-- An unsigned JSON integer literal: digits only, with no leading zero
except for the literal 0 itself (the JSON number grammar). -/
def jsonUIntLit (ds : List Char) : Option Nat :=
  match ds with
  | '0' :: _ :: _ => none
  | _ => parseDigits ds

/-- A bare JSON integer literal as json.Unmarshal accepts for an int
target: optional minus (no plus), JSON digit grammar, no fraction or
exponent, and within the 64-bit int range checked by the decoder
(strconv.ParseInt with bit size 64; Go int is 64 bits on the platforms
this program targets). -/
def jsonIntLit (t : List Char) : Option Int :=
  match t with
  | '-' :: ds =>
    (jsonUIntLit ds).bind fun n =>
      if (n : Int) ≤ 2 ^ 63 then some (-(n : Int)) else none
  | ds =>
    (jsonUIntLit ds).bind fun n =>
      if (n : Int) ≤ 2 ^ 63 - 1 then some (n : Int) else none

/-- Model of Go json.Unmarshal into a fresh int variable: JSON
whitespace around the value is allowed; the JSON literal null is ignored
by the decoder with no error, leaving the variable at its zero value;
otherwise the data must be a bare in-range JSON integer literal. -/
def jsonUnmarshalInt (data : List Char) : Option Int :=
  let t := trimJSONws data
  if t = "null".data then some 0 else jsonIntLit t

/-- One simple escape of the JSON string decoder: encoding/json accepts
backslash followed by quote, backslash, slash, apostrophe, b, f, n, r
or t. -/
def jsonSimpleEsc (c : Char) : Option Char :=
  if c = '"' ∨ c = '\\' ∨ c = '/' ∨ c = Char.ofNat 39 then some c
  else if c = 'b' then some (Char.ofNat 8)
  else if c = 'f' then some (Char.ofNat 12)
  else if c = 'n' then some '\n'
  else if c = 'r' then some '\r'
  else if c = 't' then some '\t'
  else none

/-- The value of one hexadecimal digit. -/
def hexVal (c : Char) : Option Nat :=
  if c.isDigit then some (c.toNat - '0'.toNat)
  else if 'a' ≤ c ∧ c ≤ 'f' then some (c.toNat - 'a'.toNat + 10)
  else if 'A' ≤ c ∧ c ≤ 'F' then some (c.toNat - 'A'.toNat + 10)
  else none

/-- Four hexadecimal digits of a backslash-u escape, as the json scanner
requires. -/
def getu4 (s : List Char) : Option (Nat × List Char) :=
  match s with
  | a :: b :: c :: d :: rest =>
    (match hexVal a, hexVal b, hexVal c, hexVal d with
     | some x, some y, some z, some w => some (((x * 16 + y) * 16 + z) * 16 + w, rest)
     | _, _, _, _ => none)
  | _ => none

/-- The body of a JSON string after its opening quote, decoded as
encoding/json does: simple escapes, backslash-u escapes with surrogate
pairs combined and unpaired or invalid surrogates replaced by U+FFFD
(the second half left for re-processing, as the Go decoder does),
unescaped control characters rejected, the closing quote ending the
value, and nothing allowed after it. -/
def unquoteBody : Nat → List Char → Option (List Char)
  | 0, _ => none
  | _ + 1, [] => none
  | fuel + 1, c :: rest =>
    if c = '"' then
      if rest = [] then some [] else none
    else if c = '\\' then
      (match rest with
       | [] => none
       | e :: rest2 =>
         if e = 'u' then
           match getu4 rest2 with
           | none => none
           | some (r, rest3) =>
             if 0xD800 ≤ r ∧ r < 0xE000 then
               (match rest3 with
                | bs :: u :: rest4 =>
                  if bs = '\\' ∧ u = 'u' then
                    (match getu4 rest4 with
                     | some (r2, rest5) =>
                       if 0xD800 ≤ r ∧ r ≤ 0xDBFF ∧ 0xDC00 ≤ r2 ∧ r2 ≤ 0xDFFF then
                         (unquoteBody fuel rest5).map fun tail =>
                           Char.ofNat (0x10000 + (r - 0xD800) * 0x400 + (r2 - 0xDC00)) :: tail
                       else
                         (unquoteBody fuel rest3).map fun tail => Char.ofNat 0xFFFD :: tail
                     | none => (unquoteBody fuel rest3).map fun tail => Char.ofNat 0xFFFD :: tail)
                  else (unquoteBody fuel rest3).map fun tail => Char.ofNat 0xFFFD :: tail
                | _ => (unquoteBody fuel rest3).map fun tail => Char.ofNat 0xFFFD :: tail)
             else
               (unquoteBody fuel rest3).map fun tail => Char.ofNat r :: tail
         else
           match jsonSimpleEsc e with
           | some d => (unquoteBody fuel rest2).map fun tail => d :: tail
           | none => none)
    else if c.toNat < 0x20 then none
    else (unquoteBody fuel rest).map fun tail => c :: tail

/-- Model of Go json.Unmarshal into a string: JSON whitespace around the
value, then one quoted JSON string token decoded with its escapes. -/
def jsonUnmarshalString (data : List Char) : Option (List Char) :=
  let t := trimJSONws data
  match t with
  | '"' :: rest => unquoteBody (rest.length + 1) rest
  | _ => none

/-- Model of Go strconv.Atoi: optional plus or minus sign, then a digit
run (leading zeros allowed), nothing else, and the value must fit the
64-bit int range — Atoi reports ErrRange, a non-nil error, otherwise. -/
def atoi (l : List Char) : Option Int :=
  let v : Option Int :=
    match l with
    | '-' :: ds => (parseDigits ds).map fun n => -(n : Int)
    | '+' :: ds => (parseDigits ds).map fun n => (n : Int)
    | ds => (parseDigits ds).map fun n => (n : Int)
  v.bind fun n => if -(2 ^ 63) ≤ n ∧ n ≤ 2 ^ 63 - 1 then some n else none

/-- Go method FlexInt.UnmarshalJSON (source: unnamed/part_001 lines
187-203): try a bare integer, then a string-encoded integer via Atoi; on
failure return a structured error and assign nothing (modelled by
Except.error). -/
def flexIntUnmarshalJSON (data : List Char) : Except String Int :=
  match jsonUnmarshalInt data with
  | some intVal => .ok intVal
  | none =>
    match jsonUnmarshalString data with
    | some strVal =>
      match atoi strVal with
      | some n => .ok n
      | none => .error ("FlexInt: cannot parse " ++ String.mk strVal ++ " as int")
    | none => .error ("FlexInt: cannot unmarshal " ++ String.mk data)

/-- The domain on which FlexInt decoding succeeds: the int branch
accepts (an in-range integer literal or the ignored literal null), or
the data is a JSON string whose decoded contents Atoi accepts. -/
def flexIntAccepts (data : List Char) : Bool :=
  (jsonUnmarshalInt data).isSome ||
    (match jsonUnmarshalString data with
     | some s => (atoi s).isSome
     | none => false)

/-!
## HTMLFragmentRenderer (source: thread.go, HTMLToMarkdown)

The Go code drives every pass through the regexp package. Go regexps use
leftmost-first (Perl-style) match semantics, so they are embedded here as
a small backtracking matcher over an expression tree that covers exactly
the constructs the patterns use: case-insensitive literals, one-character
classes, greedy and lazy class repetition, optional groups, alternation
and capture groups. Repetition is restricted to character classes, which
is all these patterns contain, so backtracking positions enumerate the
prefixes of a class run and the matcher terminates structurally.
-/

/-- Capture environment: group index to captured characters. Go returns
the empty string for a group that did not participate, so the default is
the empty list. -/
def Caps : Type := Nat → List Char

def emptyCaps : Caps := fun _ => []

def capSet (caps : Caps) (i : Nat) (v : List Char) : Caps :=
  fun j => if j = i then v else caps j

/-- Expression tree for the regexps in thread.go. -/
inductive RE where
  | lit (cs : List Char)
  | cls (p : Char → Bool)
  | seq (r1 r2 : RE)
  | alt (r1 r2 : RE)
  | opt (r : RE)
  | starG (p : Char → Bool)
  | starL (p : Char → Bool)
  | plusG (p : Char → Bool)
  | group (i : Nat) (r : RE)

/-- Case-insensitive character comparison; every pattern in thread.go
carries the (?i) flag (or contains no letters). -/
def ciEq (a b : Char) : Bool := a.toLower = b.toLower

/-- Match a case-insensitive literal, returning the remaining input. -/
def litMatch : List Char → List Char → Option (List Char)
  | [], s => some s
  | _ :: _, [] => none
  | p :: ps, c :: cs => if ciEq p c then litMatch ps cs else none

/-- Greedy repetition backtracking: try consuming n, n-1, ..., 0 chars. -/
def tryFromG {α : Type} (s : List Char) (caps : Caps)
    (k : List Char → Caps → Option α) : Nat → Option α
  | 0 => k s caps
  | n + 1 =>
    match k (s.drop (n + 1)) caps with
    | some v => some v
    | none => tryFromG s caps k n

/-- Lazy repetition backtracking: try consuming i, i+1, ..., i+rem chars. -/
def tryFromL {α : Type} (s : List Char) (caps : Caps)
    (k : List Char → Caps → Option α) : Nat → Nat → Option α
  | i, 0 => k (s.drop i) caps
  | i, rem + 1 =>
    match k (s.drop i) caps with
    | some v => some v
    | none => tryFromL s caps k (i + 1) rem

/-- Backtracking matcher in continuation style: leftmost-first (Perl)
order, which is the match Go's regexp package returns. -/
def matchRE {α : Type} : RE → List Char → Caps → (List Char → Caps → Option α) → Option α
  | .lit cs, s, caps, k =>
    match litMatch cs s with
    | some rest => k rest caps
    | none => none
  | .cls p, s, caps, k =>
    match s with
    | [] => none
    | c :: rest => if p c then k rest caps else none
  | .seq r1 r2, s, caps, k =>
    matchRE r1 s caps fun s' caps' => matchRE r2 s' caps' k
  | .alt r1 r2, s, caps, k =>
    match matchRE r1 s caps k with
    | some v => some v
    | none => matchRE r2 s caps k
  | .opt r, s, caps, k =>
    match matchRE r s caps k with
    | some v => some v
    | none => k s caps
  | .starG p, s, caps, k => tryFromG s caps k (s.takeWhile p).length
  | .starL p, s, caps, k => tryFromL s caps k 0 (s.takeWhile p).length
  | .plusG p, s, caps, k =>
    match s with
    | [] => none
    | c :: rest => if p c then tryFromG rest caps k (rest.takeWhile p).length else none
  | .group i r, s, caps, k =>
    matchRE r s caps fun s' caps' => k s' (capSet caps' i (s.take (s.length - s'.length)))

/-- Match anchored at the start: length consumed and captures. -/
def matchAt (r : RE) (s : List Char) : Option (Nat × Caps) :=
  matchRE r s emptyCaps fun s' caps => some (s.length - s'.length, caps)

/-- Leftmost match: start index, length and captures. -/
def findRE (r : RE) : List Char → Option (Nat × Nat × Caps)
  | [] => (matchAt r []).map fun lc => (0, lc.1, lc.2)
  | c :: rest =>
    match matchAt r (c :: rest) with
    | some (len, caps) => some (0, len, caps)
    | none => (findRE r rest).map fun t => (t.1 + 1, t.2.1, t.2.2)

/-- Go Regexp.FindStringSubmatch: the first match and its captures. -/
def findSubmatch (r : RE) (s : List Char) : Option (List Char × Caps) :=
  (findRE r s).map fun t => ((s.drop t.1).take t.2.1, t.2.2)

/-- Go Regexp.ReplaceAllStringFunc / ReplaceAllString: replace each
non-overlapping leftmost match. Every pattern in thread.go matches at
least one character, so the fuel (one unit per consumed character) is
never exhausted; the max with 1 likewise only guards the impossible
empty match. -/
def replaceLoop (r : RE) (f : List Char → Caps → List Char) :
    Nat → List Char → List Char
  | 0, s => s
  | fuel + 1, s =>
    match findRE r s with
    | none => s
    | some (i, len, caps) =>
      s.take i ++ f ((s.drop i).take len) caps ++
        replaceLoop r f fuel (s.drop (i + max len 1))

def replaceAllFunc (r : RE) (f : List Char → Caps → List Char) (s : List Char) :
    List Char :=
  replaceLoop r f (s.length + 1) s

/-- Go Regexp.FindAllStringSubmatch with limit -1. -/
def findAllLoop (r : RE) : Nat → List Char → List (List Char × Caps)
  | 0, _ => []
  | fuel + 1, s =>
    match findRE r s with
    | none => []
    | some (i, len, caps) =>
      ((s.drop i).take len, caps) :: findAllLoop r fuel (s.drop (i + max len 1))

def findAllRE (r : RE) (s : List Char) : List (List Char × Caps) :=
  findAllLoop r (s.length + 1) s

/-- Go strings.ReplaceAll (case-sensitive literal). -/
def replaceAllLit : Nat → List Char → List Char → List Char → List Char
  | 0, s, _, _ => s
  | _ + 1, [], _, _ => []
  | fuel + 1, c :: rest, pat, rep =>
    if pat ≠ [] ∧ pat.isPrefixOf (c :: rest) then
      rep ++ replaceAllLit fuel ((c :: rest).drop pat.length) pat rep
    else c :: replaceAllLit fuel rest pat rep

def goReplaceAllL (s pat rep : List Char) : List Char :=
  replaceAllLit (s.length + 1) s pat rep

/-! ### Character classes and the thread.go patterns -/

def anyChar : Char → Bool := fun _ => true
def notGT : Char → Bool := fun c => c ≠ '>'
def notDQ : Char → Bool := fun c => c ≠ '"'
/-- RE2 class backslash-s: tab, newline, form feed, carriage return, space. -/
def wsCh : Char → Bool := fun c =>
  c = '\t' || c = '\n' || c = (Char.ofNat 12) || c = '\r' || c = ' '
def nlCh : Char → Bool := fun c => c = '\n'
def sptabCh : Char → Bool := fun c => c = ' ' || c = '\t'

def strL (s : String) : RE := .lit s.data

def reSeq (l : List RE) : RE := l.foldr RE.seq (.lit [])

/-- Pattern of preBlockRe. -/
def preBlockRe : RE :=
  reSeq [strL "<pre", .starG notGT, strL ">", .group 1 (.starL anyChar), strL "</pre>"]

/-- Pattern of codeInPreRe, with the optional language-class attribute. -/
def codeInPreRe : RE :=
  reSeq [strL "<code",
         .opt (reSeq [.plusG wsCh, strL "class=\"language-",
                      .group 1 (.starG notDQ), strL "\""]),
         .starG notGT, strL ">", .group 2 (.starL anyChar), strL "</code>"]

/-- Patterns of h1Re .. h6Re, by heading digit. -/
def hnRe (d : String) : RE :=
  reSeq [strL ("<h" ++ d), .starG notGT, strL ">", .group 1 (.starL anyChar),
         strL ("</h" ++ d ++ ">")]

def blockquoteRe : RE :=
  reSeq [strL "<blockquote", .starG notGT, strL ">", .group 1 (.starL anyChar),
         strL "</blockquote>"]

def ulRe : RE :=
  reSeq [strL "<ul", .starG notGT, strL ">", .group 1 (.starL anyChar), strL "</ul>"]

def olRe : RE :=
  reSeq [strL "<ol", .starG notGT, strL ">", .group 1 (.starL anyChar), strL "</ol>"]

def liRe : RE :=
  reSeq [strL "<li", .starG notGT, strL ">", .group 1 (.starL anyChar), strL "</li>"]

def pRe : RE :=
  reSeq [strL "<p", .starG notGT, strL ">", .group 1 (.starL anyChar), strL "</p>"]

def hrRe : RE := reSeq [strL "<hr", .starG wsCh, .opt (strL "/"), strL ">"]

def linkRe : RE :=
  reSeq [strL "<a", .cls wsCh, .starG notGT, strL "href=\"",
         .group 1 (.starG notDQ), strL "\"", .starG notGT, strL ">",
         .group 2 (.starL anyChar), strL "</a>"]

def imgRe : RE :=
  reSeq [strL "<img", .cls wsCh, .starG notGT, strL "src=\"",
         .group 1 (.starG notDQ), strL "\"", .starG notGT,
         .opt (reSeq [strL "alt=\"", .group 2 (.starG notDQ), strL "\""]),
         .starG notGT, .opt (strL "/"), strL ">"]

def boldRe : RE :=
  reSeq [strL "<", .alt (strL "strong") (strL "b"), strL ">",
         .group 1 (.starL anyChar), strL "</", .alt (strL "strong") (strL "b"), strL ">"]

def italicRe : RE :=
  reSeq [strL "<", .alt (strL "em") (strL "i"), strL ">",
         .group 1 (.starL anyChar), strL "</", .alt (strL "em") (strL "i"), strL ">"]

def inlineCodeRe : RE :=
  reSeq [strL "<code>", .group 1 (.starL anyChar), strL "</code>"]

def brRe : RE := reSeq [strL "<br", .starG wsCh, .opt (strL "/"), strL ">"]

def tagRe : RE := reSeq [strL "<", .starG notGT, strL ">"]

def multiNewlineRe : RE := reSeq [strL "\n\n\n", .starG nlCh]

def trailingSpaceRe : RE := reSeq [.plusG sptabCh, strL "\n"]

/-! ### HTML entity decoding (model of Go html.UnescapeString) -/

/-- The named entities this model decodes; the renderer only ever meets
the basic XML set plus nbsp. Go's table is far larger, but the extra
names never occur in the verified statements. -/
def namedEnts : List (List Char × Char) :=
  [("amp;".data, '&'), ("lt;".data, '<'), ("gt;".data, '>'),
   ("quot;".data, '"'), ("apos;".data, '\''), ("nbsp;".data, Char.ofNat 0xA0)]

def checkNamed : List (List Char × Char) → List Char → Option (Char × List Char)
  | [], _ => none
  | (pat, d) :: more, s =>
    if pat.isPrefixOf s then some (d, s.drop pat.length) else checkNamed more s

def parseHexDigits (l : List Char) : Option Nat :=
  if l = [] then none
  else l.foldl (fun acc c =>
    match acc, hexVal c with
    | some a, some v => some (a * 16 + v)
    | _, _ => none) (some 0)

/-- Decode one character reference after an ampersand: a named entity or
a (semicolon-terminated) decimal or hexadecimal numeric reference. -/
def matchEntity (s : List Char) : Option (Char × List Char) :=
  match checkNamed namedEnts s with
  | some r => some r
  | none =>
    match s with
    | '#' :: t =>
      let hex := match t with
                 | 'x' :: u => some u
                 | 'X' :: u => some u
                 | _ => none
      match hex with
      | some u =>
        let ds := u.takeWhile fun c => (hexVal c).isSome
        (match u.drop ds.length with
         | ';' :: r =>
           (parseHexDigits ds).map fun n => (Char.ofNat n, r)
         | _ => none)
      | none =>
        let ds := t.takeWhile fun c => c.isDigit
        (match t.drop ds.length with
         | ';' :: r =>
           (parseDigits ds).map fun n => (Char.ofNat n, r)
         | _ => none)
    | _ => none

def unescLoop : Nat → List Char → List Char
  | 0, s => s
  | _ + 1, [] => []
  | fuel + 1, c :: rest =>
    if c = '&' then
      match matchEntity rest with
      | some (d, rest') => d :: unescLoop fuel rest'
      | none => c :: unescLoop fuel rest
    else c :: unescLoop fuel rest

def htmlUnescapeL (s : List Char) : List Char := unescLoop (s.length + 1) s

/-! ### The passes of HTMLToMarkdown -/

def intercalateL (sep : List Char) : List (List Char) → List Char
  | [] => []
  | [x] => x
  | x :: xs => x ++ sep ++ intercalateL sep xs

def splitNL (l : List Char) : List (List Char) :=
  ((String.mk l).splitOn "\n").map String.data

/-- Go func stripTags. -/
def stripTagsL (s : List Char) : List Char :=
  replaceAllFunc tagRe (fun _ _ => []) s

/-- Go func processPreBlocks (thread.go lines 112-134): protect pre/code
content, decoding entities and stripping tags inside it, and emit a
fenced code block with the optional language hint. -/
def processPreBlocksL (s : List Char) : List Char :=
  replaceAllFunc preBlockRe
    (fun matched _ =>
      match findSubmatch preBlockRe matched with
      | none => matched
      | some (_, caps) =>
        let content0 := caps 1
        let lc :=
          match findSubmatch codeInPreRe content0 with
          | some (_, ccaps) => (ccaps 1, ccaps 2)
          | none => ([], content0)
        let content := goTrimSpaceL (stripTagsL (htmlUnescapeL lc.2))
        "\n\n```".data ++ lc.1 ++ "\n".data ++ content ++ "\n```".data ++ "\n\n".data)
    s

/-- One heading rewrite of processHeadings. -/
def headingPass (d : String) (marks : String) (s : List Char) : List Char :=
  replaceAllFunc (hnRe d)
    (fun matched _ =>
      let inner :=
        match findSubmatch (hnRe d) matched with
        | some (_, caps) => stripTagsL (caps 1)
        | none => []
      "\n\n".data ++ marks.data ++ " ".data ++ goTrimSpaceL inner ++ "\n\n".data)
    s

/-- Go func processHeadings (h1 through h6, in order). -/
def processHeadingsL (s : List Char) : List Char :=
  headingPass "6" "######"
    (headingPass "5" "#####"
      (headingPass "4" "####"
        (headingPass "3" "###"
          (headingPass "2" "##"
            (headingPass "1" "#" s)))))

/-- Go func processBlockquotes. -/
def processBlockquotesL (s : List Char) : List Char :=
  replaceAllFunc blockquoteRe
    (fun matched _ =>
      let inner :=
        match findSubmatch blockquoteRe matched with
        | some (_, caps) => caps 1
        | none => []
      let inner2 := goTrimSpaceL (stripTagsL inner)
      let quoted := (splitNL inner2).map fun line => "> ".data ++ goTrimSpaceL line
      "\n\n".data ++ intercalateL "\n".data quoted ++ "\n\n".data)
    s

/-- Go func processLists: unordered lists, then ordered lists. -/
def processListsL (s : List Char) : List Char :=
  let afterUl :=
    replaceAllFunc ulRe
      (fun matched _ =>
        let inner :=
          match findSubmatch ulRe matched with
          | some (_, caps) => caps 1
          | none => []
        let items := findAllRE liRe inner
        let lines := items.map fun it => "- ".data ++ goTrimSpaceL (stripTagsL (it.2 1))
        "\n\n".data ++ intercalateL "\n".data lines ++ "\n\n".data)
      s
  replaceAllFunc olRe
    (fun matched _ =>
      let inner :=
        match findSubmatch olRe matched with
        | some (_, caps) => caps 1
        | none => []
      let items := findAllRE liRe inner
      let lines := items.enum.map fun p =>
        (toString (p.1 + 1)).data ++ ". ".data ++ goTrimSpaceL (stripTagsL (p.2.2 1))
      "\n\n".data ++ intercalateL "\n".data lines ++ "\n\n".data)
    afterUl

/-- Go func processParagraphs. -/
def processParagraphsL (s : List Char) : List Char :=
  replaceAllFunc pRe (fun _ caps => "\n\n".data ++ caps 1 ++ "\n\n".data) s

/-- Go func processHorizontalRules. -/
def processHorizontalRulesL (s : List Char) : List Char :=
  replaceAllFunc hrRe (fun _ _ => "\n\n---\n\n".data) s

/-- Go func processLinks. -/
def processLinksL (s : List Char) : List Char :=
  replaceAllFunc linkRe
    (fun matched _ =>
      match findSubmatch linkRe matched with
      | none => matched
      | some (_, caps) =>
        let href := caps 1
        let text := goTrimSpaceL (stripTagsL (caps 2))
        let text2 := if text = [] then href else text
        "[".data ++ text2 ++ "](".data ++ href ++ ")".data)
    s

/-- Go func processImages. -/
def processImagesL (s : List Char) : List Char :=
  replaceAllFunc imgRe
    (fun matched _ =>
      match findSubmatch imgRe matched with
      | none => matched
      | some (_, caps) =>
        "![".data ++ caps 2 ++ "](".data ++ caps 1 ++ ")".data)
    s

/-- Go func processBold. -/
def processBoldL (s : List Char) : List Char :=
  replaceAllFunc boldRe (fun _ caps => "**".data ++ caps 1 ++ "**".data) s

/-- Go func processItalic. -/
def processItalicL (s : List Char) : List Char :=
  replaceAllFunc italicRe (fun _ caps => "*".data ++ caps 1 ++ "*".data) s

/-- Go func processInlineCode. -/
def processInlineCodeL (s : List Char) : List Char :=
  replaceAllFunc inlineCodeRe (fun _ caps => "`".data ++ caps 1 ++ "`".data) s

/-- Go func processLineBreaks. -/
def processLineBreaksL (s : List Char) : List Char :=
  replaceAllFunc brRe (fun _ _ => "\n".data) s

/-- Go func cleanWhitespace: strip trailing blanks before newlines, then
collapse 3-or-more newlines to exactly two. -/
def cleanWhitespaceL (s : List Char) : List Char :=
  replaceAllFunc multiNewlineRe (fun _ _ => "\n\n".data)
    (replaceAllFunc trailingSpaceRe (fun _ _ => "\n".data) s)

/-- Go func HTMLToMarkdown (thread.go lines 72-107): the full pass
pipeline. -/
def HTMLToMarkdown (htmlStr : String) : String :=
  let s1 := goReplaceAllL htmlStr.data "\r\n".data "\n".data
  let s2 := goReplaceAllL s1 "\r".data "\n".data
  let s3 := processPreBlocksL s2
  let s4 := processHeadingsL s3
  let s5 := processBlockquotesL s4
  let s6 := processListsL s5
  let s7 := processParagraphsL s6
  let s8 := processHorizontalRulesL s7
  let s9 := processLinksL s8
  let s10 := processImagesL s9
  let s11 := processBoldL s10
  let s12 := processItalicL s11
  let s13 := processInlineCodeL s12
  let s14 := processLineBreaksL s13
  let s15 := stripTagsL s14
  let s16 := htmlUnescapeL s15
  let s17 := cleanWhitespaceL s16
  String.mk (goTrimSpaceL s17)

/-! ## Definitions supporting the claim statements -/

/-- A range at which the scanning loop of renderAtomicBlock stops: its
key resolves to an entity of type MEDIA or DIVIDER. -/
def entStops (el : Int → Option EntityValue) (er : EntityRange) : Bool :=
  match el er.key with
  | some e => e.type == "MEDIA" || e.type == "DIVIDER"
  | none => false

/-- A LINK entity, a DIVIDER entity, an entity map holding both, and an
atomic block whose ranges reference the LINK first. -/
def linkEnt : EntityValue := ⟨"LINK", "MUTABLE", ⟨"", [], "http://example.com"⟩⟩

def divEnt : EntityValue := ⟨"DIVIDER", "IMMUTABLE", ⟨"", [], ""⟩⟩

def c3Map : List EntityMapItem := [⟨0, linkEnt⟩, ⟨1, divEnt⟩]

def c3Block : Block := ⟨"b1", " ", "atomic", [], [⟨0, 0, 0⟩, ⟨1, 0, 0⟩]⟩

/-- The running blocks of the numbering example: two ordered items, one
unstyled block, two more ordered items. -/
def olBlock (t : String) : Block := ⟨"k", t, "ordered-list-item", [], []⟩

def unBlock (t : String) : Block := ⟨"k", t, "unstyled", [], []⟩

/-- An entry buildMediaLookup actually inserts: its media info is present
and its image URL is non-empty. -/
def validMediaEntry (e : ArticleMedia) : Bool :=
  match e.mediaInfo with
  | some mi => !(mi.originalImgURL == "")
  | none => false

/-- The image URL carried by an entry (empty when no media info). -/
def entryURL (e : ArticleMedia) : String :=
  match e.mediaInfo with
  | some mi => mi.originalImgURL
  | none => ""

/-- The duplicate-id list of the counterexample: the second entry bears
the same id but an empty image URL. -/
def c7m1 : ArticleMedia := ⟨"i1", "k1", "a", some ⟨"photo", "u", 1, 1⟩⟩

def c7m2 : ArticleMedia := ⟨"i2", "k2", "a", some ⟨"photo", "", 1, 1⟩⟩

/-! ## Order properties of the event comparator -/

theorem evLT_iff (a b : StyleEvent) :
    evLT a b = true ↔
      (a.pos < b.pos ∨ (a.pos = b.pos ∧ a.start = false ∧ b.start = true)) := by
  unfold evLT
  by_cases hp : a.pos = b.pos
  · cases ha : a.start <;> cases hb : b.start <;> simp [hp, ha, hb]
  · simp only [ne_eq, hp, not_false_eq_true, if_true, decide_eq_true_eq]
    constructor
    · exact fun h => Or.inl h
    · rintro (h | ⟨h, _⟩)
      · exact h
      · exact h.elim

theorem evLE_iff (a b : StyleEvent) :
    evLE a b ↔
      (a.pos < b.pos ∨ (a.pos = b.pos ∧ (a.start = true → b.start = true))) := by
  have hb : evLT b a = false ↔ ¬ (evLT b a = true) := by
    cases h : evLT b a <;> simp
  rw [evLE, hb, evLT_iff]
  constructor
  · intro h
    rcases lt_trichotomy a.pos b.pos with hlt | heq | hgt
    · exact Or.inl hlt
    · refine Or.inr ⟨heq, fun has => ?_⟩
      cases hbs : b.start
      · exact absurd (Or.inr ⟨heq.symm, hbs, has⟩) h
      · rfl
    · exact absurd (Or.inl hgt) h
  · rintro (h | ⟨heq, himp⟩) hc
    · rcases hc with hc | ⟨hc, _⟩ <;> omega
    · rcases hc with hc | ⟨_, hbs, has⟩
      · omega
      · exact absurd (himp has) (by simp [hbs])

theorem evLE_total : ∀ a b : StyleEvent, evLE a b ∨ evLE b a := by
  intro a b
  rw [evLE_iff, evLE_iff]
  rcases lt_trichotomy a.pos b.pos with h | h | h
  · exact Or.inl (Or.inl h)
  · cases hb : b.start
    · exact Or.inr (Or.inr ⟨h.symm, by simp [hb]⟩)
    · exact Or.inl (Or.inr ⟨h, by simp [hb]⟩)
  · exact Or.inr (Or.inl h)

theorem evLE_trans : ∀ a b c : StyleEvent, evLE a b → evLE b c → evLE a c := by
  intro a b c hab hbc
  rw [evLE_iff] at hab hbc ⊢
  rcases hab with h1 | ⟨h1, h1s⟩ <;> rcases hbc with h2 | ⟨h2, h2s⟩
  · exact Or.inl (by omega)
  · exact Or.inl (by omega)
  · exact Or.inl (by omega)
  · exact Or.inr ⟨by omega, fun h => h2s (h1s h)⟩

/-! ## Helper lemmas about the emission sweep -/

theorem tokenChars_marks (ms : List String) :
    tokenChars (ms.map MDToken.mark) = [] := by
  induction ms with
  | nil => rfl
  | cons m ms ih => simp [tokenChars, List.filterMap_cons]

theorem tokenChars_append (a b : List MDToken) :
    tokenChars (a ++ b) = tokenChars a ++ tokenChars b := by
  simp [tokenChars]

theorem tokenChars_chr_cons (c : Char) (ts : List MDToken) :
    tokenChars (MDToken.chr c :: ts) = c :: tokenChars ts := by
  simp [tokenChars, List.filterMap_cons]

theorem tokenChars_emitTokens (cs : List Char) :
    ∀ (pos : Int) (evs : List StyleEvent), tokenChars (emitTokens pos cs evs) = cs := by
  induction cs with
  | nil =>
    intro pos evs
    simpa [emitTokens] using tokenChars_marks ((consumeAt pos evs).1)
  | cons c cs ih =>
    intro pos evs
    rw [emitTokens, tokenChars_append, tokenChars_marks, tokenChars_chr_cons, ih]
    rfl

theorem renderTokens_chars (cs : List Char) :
    renderTokens (cs.map MDToken.chr) = cs := by
  induction cs with
  | nil => rfl
  | cons c cs ih => simpa [renderTokens] using ih

theorem emitTokens_nil_evs (cs : List Char) :
    ∀ pos : Int, emitTokens pos cs [] = cs.map MDToken.chr := by
  induction cs with
  | nil => intro pos; rfl
  | cons c cs ih => intro pos; simp [emitTokens, consumeAt, ih]

theorem consumeAt_neg_head (pos : Int) (e : StyleEvent) (rest : List StyleEvent)
    (hneg : e.pos < 0) (hpos : 0 ≤ pos) : consumeAt pos (e :: rest) = ([], e :: rest) := by
  unfold consumeAt
  rw [if_neg (by omega)]

theorem emitTokens_blocked (cs : List Char) :
    ∀ (pos : Int) (e : StyleEvent) (rest : List StyleEvent), 0 ≤ pos → e.pos < 0 →
      emitTokens pos cs (e :: rest) = cs.map MDToken.chr := by
  induction cs with
  | nil =>
    intro pos e rest hpos hneg
    simp [emitTokens, consumeAt_neg_head pos e rest hneg hpos]
  | cons c cs ih =>
    intro pos e rest hpos hneg
    simp [emitTokens, consumeAt_neg_head pos e rest hneg hpos,
      ih (pos + 1) e rest (by omega) hneg]

theorem sorted_head_le {e : StyleEvent} {t : List StyleEvent}
    (h : List.Sorted evLE (e :: t)) (x : StyleEvent) (hx : x ∈ e :: t) :
    e.pos ≤ x.pos := by
  rcases List.mem_cons.mp hx with rfl | hx
  · exact le_refl _
  · have hle := List.rel_of_sorted_cons h x hx
    rcases (evLE_iff e x).mp hle with h1 | ⟨h1, _⟩ <;> omega

theorem buildEvents_mem_open {s : InlineStyleRange} {styles : List InlineStyleRange}
    (n : Nat) (hs : s ∈ styles) :
    (⟨s.offset, s.style, true⟩ : StyleEvent) ∈ buildEvents styles n := by
  unfold buildEvents
  rw [List.mem_flatMap]
  exact ⟨s, hs, by simp⟩

/-! ## Claim C2 -/

/-- C2, counterexample: a range with a negative offset is not clamped;
its events block the emission sweep entirely, so not even the markers of
the other, well-formed Italic range appear in the output — the claim's
predicted clamped rendering demands them. -/
theorem c2_clamping_counterexample :
    applyInlineStyles "ab" [⟨-1, 2, "Bold"⟩, ⟨0, 1, "Italic"⟩] = "ab" ∧
    styleMarker "Italic" = "*" ∧
    '*' ∉ (applyInlineStyles "ab" [⟨-1, 2, "Bold"⟩, ⟨0, 1, "Italic"⟩]).data := by
  refine ⟨by decide, by decide, by decide⟩

/-- C2, amended: applyInlineStyles clamps only the upper end of a range
(offset+length) down to N; offsets themselves are not clamped. A range
whose offset is negative puts an event at a negative position, the sorted
event queue is then stuck below the sweep cursor, and no marker of any
range is emitted: the function returns the text unchanged. -/
theorem c2_clamping_amended (text : String) (styles : List InlineStyleRange)
    (h : ∃ s ∈ styles, s.offset < 0) :
    applyInlineStyles text styles = text := by
  obtain ⟨s, hs, hneg⟩ := h
  have hne : styles ≠ [] := by
    rintro rfl
    exact absurd hs (List.not_mem_nil s)
  unfold applyInlineStyles applyTokens
  rw [if_neg hne]
  have hmem : (⟨s.offset, s.style, true⟩ : StyleEvent) ∈
      sortEvents (buildEvents styles text.data.length) := by
    unfold sortEvents
    rw [List.mem_insertionSort]
    exact buildEvents_mem_open _ hs
  have hsorted : List.Sorted evLE (sortEvents (buildEvents styles text.data.length)) :=
    @List.sorted_insertionSort StyleEvent evLE _ ⟨evLE_total⟩ ⟨evLE_trans⟩ _
  cases hsv : sortEvents (buildEvents styles text.data.length) with
  | nil =>
    rw [hsv] at hmem
    cases hmem
  | cons e t =>
    rw [hsv] at hmem hsorted
    have hhead : e.pos < 0 := lt_of_le_of_lt (sorted_head_le hsorted _ hmem) hneg
    rw [emitTokens_blocked text.data 0 e t (by omega) hhead, renderTokens_chars]

/-- Witness for c2_clamping_amended at a concrete malformed range. -/
theorem c2_clamping_amended_witness :
    applyInlineStyles "xy" [⟨-3, 1, "Bold"⟩] = "xy" :=
  c2_clamping_amended "xy" [⟨-3, 1, "Bold"⟩] ⟨⟨-3, 1, "Bold"⟩, by decide, by decide⟩

/-! ## Claim C4 -/

/-- C4 (confirmed): for well-formed ranges, applyInlineStyles is the
rendering of a token stream that interleaves markers with the text's
characters, and deleting exactly the inserted markers from that stream
gives back the original text character for character. -/
theorem c4_flatten_preserves_text (text : String) (styles : List InlineStyleRange)
    (h : ∀ s ∈ styles, 0 ≤ s.offset ∧ s.offset + s.length ≤ (text.data.length : Int)) :
    applyInlineStyles text styles = String.mk (renderTokens (applyTokens text styles)) ∧
    tokenChars (applyTokens text styles) = text.data := by
  refine ⟨?_, tokenChars_emitTokens text.data 0 _⟩
  unfold applyInlineStyles
  by_cases he : styles = []
  · rw [if_pos he]
    subst he
    simp only [applyTokens, buildEvents, List.flatMap_nil, sortEvents,
      List.insertionSort, emitTokens_nil_evs, renderTokens_chars]
  · rw [if_neg he]

/-- Witness for c4_flatten_preserves_text on a concrete well-formed
range set. -/
theorem c4_flatten_preserves_text_witness :
    applyInlineStyles "ab" [⟨0, 1, "Bold"⟩] =
        String.mk (renderTokens (applyTokens "ab" [⟨0, 1, "Bold"⟩])) ∧
    tokenChars (applyTokens "ab" [⟨0, 1, "Bold"⟩]) = "ab".data :=
  c4_flatten_preserves_text "ab" [⟨0, 1, "Bold"⟩] (by decide)

/-! ## Claim C5 -/

/-- C5 (confirmed): the sorted event sequence used by applyInlineStyles
is a permutation of the built events, ordered by position ascending with
close events before open events at equal positions; on the spec's own
input the rendering is exactly the predicted string. -/
theorem c5_event_order :
    (∀ evs : List StyleEvent,
      (sortEvents evs).Pairwise
        (fun a b => a.pos < b.pos ∨ (a.pos = b.pos ∧ (a.start = true → b.start = true))) ∧
      (sortEvents evs).Perm evs) ∧
    applyInlineStyles "abcd" [⟨0, 2, "Bold"⟩, ⟨2, 2, "Italic"⟩] = "**ab***cd*" := by
  refine ⟨fun evs => ⟨?_, List.perm_insertionSort evLE evs⟩, by decide⟩
  exact List.Pairwise.imp (fun hab => (evLE_iff _ _).mp hab)
    (@List.sorted_insertionSort StyleEvent evLE _ ⟨evLE_total⟩ ⟨evLE_trans⟩ evs)

/-! ## Claim C3 -/

theorem scanEntityRanges_find (el : Int → Option EntityValue)
    (ml : String → Option String) :
    ∀ rs : List EntityRange,
      scanEntityRanges el ml rs =
        (match rs.find? (entStops el) with
         | none => ""
         | some er =>
           match el er.key with
           | some e => if e.type = "MEDIA" then renderMediaEntity e ml else "---"
           | none => "") := by
  intro rs
  induction rs with
  | nil => rfl
  | cons er rest ih =>
    cases hk : el er.key with
    | none =>
      have hstop : entStops el er = false := by simp [entStops, hk]
      rw [scanEntityRanges, hk, List.find?_cons_of_neg _ (by simp [hstop]), ih]
    | some e =>
      by_cases hm : e.type = "MEDIA"
      · have hstop : entStops el er = true := by simp [entStops, hk, hm]
        rw [scanEntityRanges, hk, List.find?_cons_of_pos _ hstop]
        simp [hk, hm]
      · by_cases hd : e.type = "DIVIDER"
        · have hstop : entStops el er = true := by simp [entStops, hk, hd]
          rw [scanEntityRanges, hk, List.find?_cons_of_pos _ hstop]
          simp [hk, hm, hd]
        · have hstop : entStops el er = false := by simp [entStops, hk, hm, hd]
          rw [scanEntityRanges, hk, List.find?_cons_of_neg _ (by simp [hstop]), ← ih]
          simp [hm, hd]

/-- C3, amended: the scan of renderAtomicBlock continues past a range
whose key does not resolve and equally past a range resolving to an
entity of any type other than MEDIA and DIVIDER; it stops at the first
range resolving to MEDIA (returning that entity's rendering, which stops
the scan even when empty) or DIVIDER (returning the thematic break), and
renders empty when no range stops it. -/
theorem c3_entity_scan_amended (b : Block) (el : Int → Option EntityValue)
    (ml : String → Option String) :
    renderAtomicBlock b el ml =
      (match b.entityRanges.find? (entStops el) with
       | none => ""
       | some er =>
         match el er.key with
         | some e => if e.type = "MEDIA" then renderMediaEntity e ml else "---"
         | none => "") :=
  scanEntityRanges_find el ml b.entityRanges

/-- C3, counterexample: the first range's key 0 resolves (to a LINK
entity, a type other than MEDIA and DIVIDER), yet the scan does not stop
there: it continues to the second range and renders its DIVIDER, where
the claim predicts the block yields the empty fragment of the first
resolving key. -/
theorem c3_entity_scan_counterexample :
    buildEntityLookup c3Map 0 = some linkEnt ∧
    linkEnt.type ≠ "MEDIA" ∧ linkEnt.type ≠ "DIVIDER" ∧
    renderAtomicBlock c3Block (buildEntityLookup c3Map) (fun _ => none) = "---" := by
  refine ⟨by decide, by decide, by decide, by decide⟩

/-! ## Claim C6 -/

theorem renderBlock_ordered (el : Int → Option EntityValue)
    (ml : String → Option String) (c : Nat) (b : Block)
    (h : b.type = "ordered-list-item") :
    renderBlock el ml c b =
      (some (toString (c + 1) ++ ". " ++ applyInlineStyles b.text b.inlineStyleRanges),
        c + 1) := by
  unfold renderBlock
  rw [h]
  rw [if_neg (by decide), if_neg (by decide), if_neg (by decide), if_neg (by decide),
    if_neg (by decide), if_neg (by decide), if_neg (by decide), if_neg (by decide),
    if_pos rfl]

theorem renderBlock_counter (el : Int → Option EntityValue)
    (ml : String → Option String) (c : Nat) (b : Block) :
    (renderBlock el ml c b).2 = if b.type = "ordered-list-item" then c + 1 else 0 := by
  by_cases h : b.type = "ordered-list-item"
  · rw [renderBlock_ordered el ml c b h, if_pos h]
  · rw [if_neg h]
    unfold renderBlock
    simp only [apply_ite Prod.snd, h, if_false, ite_self]

theorem processBlocks_cons (el : Int → Option EntityValue)
    (ml : String → Option String) (b : Block) (bs : List Block) (c : Nat) :
    processBlocks el ml (b :: bs) c =
      (match renderBlock el ml c b with
       | (some s, c2) => s :: processBlocks el ml bs c2
       | (none, c2) => processBlocks el ml bs c2) := rfl

theorem processBlocks_append (el : Int → Option EntityValue)
    (ml : String → Option String) (ys : List Block) :
    ∀ (xs : List Block) (c : Nat),
      processBlocks el ml (xs ++ ys) c =
        processBlocks el ml xs c ++ processBlocks el ml ys (olAfter xs c) := by
  intro xs
  induction xs with
  | nil => intro c; rfl
  | cons x xs ih =>
    intro c
    rcases hx : renderBlock el ml c x with ⟨o, c2⟩
    have hc2 : c2 = if x.type = "ordered-list-item" then c + 1 else 0 := by
      have h2 := renderBlock_counter el ml c x
      rw [hx] at h2
      exact h2
    have holA : olAfter (x :: xs) c = olAfter xs c2 := by
      rw [olAfter, ← hc2]
    cases o with
    | some s =>
      have lhs1 : processBlocks el ml (x :: (xs ++ ys)) c =
          s :: processBlocks el ml (xs ++ ys) c2 := by
        rw [processBlocks_cons, hx]
      have rhs1 : processBlocks el ml (x :: xs) c = s :: processBlocks el ml xs c2 := by
        rw [processBlocks_cons, hx]
      show processBlocks el ml (x :: (xs ++ ys)) c = _
      rw [lhs1, rhs1, ih c2, holA]
      rfl
    | none =>
      have lhs1 : processBlocks el ml (x :: (xs ++ ys)) c =
          processBlocks el ml (xs ++ ys) c2 := by
        rw [processBlocks_cons, hx]
      have rhs1 : processBlocks el ml (x :: xs) c = processBlocks el ml xs c2 := by
        rw [processBlocks_cons, hx]
      show processBlocks el ml (x :: (xs ++ ys)) c = _
      rw [lhs1, rhs1, ih c2, holA]

theorem olAfter_append (ys : List Block) :
    ∀ (xs : List Block) (c : Nat), olAfter (xs ++ ys) c = olAfter ys (olAfter xs c) := by
  intro xs
  induction xs with
  | nil => intro c; rfl
  | cons x xs ih => intro c; simp [olAfter, ih]

theorem olAfter_eq_trailingOlRun :
    ∀ bs : List Block, olAfter bs 0 = trailingOlRun bs := by
  intro bs
  induction bs using List.reverseRecOn with
  | nil => rfl
  | append_singleton xs b ih =>
    rw [olAfter_append [b] xs 0, trailingOlRun]
    simp only [List.reverse_append, List.reverse_cons, List.reverse_nil,
      List.nil_append, List.cons_append, List.takeWhile]
    by_cases hb : b.type = "ordered-list-item"
    · simp [olAfter, hb, ih, trailingOlRun]
    · simp [olAfter, hb]

/-- C6 (confirmed): in the block loop, every non-ordered block resets the
counter and every ordered-list-item increments it before its number is
emitted, so the part rendered for an ordered-list-item carries one plus
the number of immediately preceding consecutive ordered-list-item blocks;
on the 2-ordered/1-unstyled/2-ordered example the emitted numbers are
1,2 then 1,2. -/
theorem c6_ordered_counter :
    (∀ (el : Int → Option EntityValue) (ml : String → Option String)
        (pre : List Block) (b : Block) (post : List Block),
      b.type = "ordered-list-item" →
        processBlocks el ml (pre ++ b :: post) 0 =
          processBlocks el ml pre 0 ++
            (toString (trailingOlRun pre + 1) ++ ". " ++
              applyInlineStyles b.text b.inlineStyleRanges)
              :: processBlocks el ml post (trailingOlRun pre + 1)) ∧
    DraftJSToMarkdown
        (some ⟨[olBlock "a", olBlock "b", unBlock "x", olBlock "c", olBlock "d"], []⟩) [] =
      "1. a\n\n2. b\n\nx\n\n1. c\n\n2. d" := by
  refine ⟨?_, by decide⟩
  intro el ml pre b post h
  rw [processBlocks_append el ml (b :: post) pre 0, olAfter_eq_trailingOlRun pre]
  rw [processBlocks, renderBlock_ordered el ml (trailingOlRun pre) b h]

/-- Witness for the universally quantified part of c6_ordered_counter. -/
theorem c6_ordered_counter_witness :
    processBlocks (fun _ => none) (fun _ => none) ([unBlock "x"] ++ olBlock "a" :: []) 0 =
      processBlocks (fun _ => none) (fun _ => none) [unBlock "x"] 0 ++
        (toString (trailingOlRun [unBlock "x"] + 1) ++ ". " ++
          applyInlineStyles (olBlock "a").text (olBlock "a").inlineStyleRanges)
          :: processBlocks (fun _ => none) (fun _ => none) []
              (trailingOlRun [unBlock "x"] + 1) :=
  c6_ordered_counter.1 (fun _ => none) (fun _ => none) [unBlock "x"] (olBlock "a") [] rfl

/-! ## Claim C7 -/

/-- C7, amended: an id maps to the image URL of the last entry bearing
that id among the entries with media info present and a non-empty image
URL; entries failing that filter neither insert nor overwrite, and an id
occurring only in filtered-out entries does not map at all. -/
theorem c7_media_lookup_amended (es : List ArticleMedia) (id : String) :
    buildMediaLookup es id =
      ((es.filter fun e => validMediaEntry e && (e.mediaID == id)).getLast?).map
        entryURL := by
  induction es using List.reverseRecOn with
  | nil => rfl
  | append_singleton xs e ih =>
    rw [buildMediaLookup, List.foldl_append] at *
    rw [List.filter_append]
    cases hmi : e.mediaInfo with
    | none =>
      have hv : validMediaEntry e = false := by simp [validMediaEntry, hmi]
      simp only [List.foldl_cons, List.foldl_nil, hmi]
      simpa [hv] using ih
    | some mi =>
      by_cases hu : mi.originalImgURL = ""
      · have hv : validMediaEntry e = false := by simp [validMediaEntry, hmi, hu]
        simp only [List.foldl_cons, List.foldl_nil, hmi]
        rw [if_neg (by simpa using hu)]
        simpa [hv] using ih
      · have hv : validMediaEntry e = true := by simp [validMediaEntry, hmi, hu]
        simp only [List.foldl_cons, List.foldl_nil, hmi]
        rw [if_pos (by simpa using hu)]
        by_cases hid : id = e.mediaID
        · rw [if_pos hid]
          have : (e.mediaID == id) = true := by simp [hid.symm]
          simp [List.filter_cons, hv, this, entryURL, hmi]
        · rw [if_neg hid]
          have : (e.mediaID == id) = false := by
            simp only [beq_eq_false_iff_ne, ne_eq]
            exact fun hcon => hid hcon.symm
          simpa [List.filter_cons, hv, this] using ih

/-- C7, counterexample: the last entry bearing id "a" carries the image
URL "", yet the lookup maps "a" to "u" from the earlier entry — the
empty-URL duplicate is skipped, not inserted with last-wins. -/
theorem c7_media_lookup_counterexample :
    ([c7m1, c7m2].getLast?).map (fun e => e.mediaID) = some "a" ∧
    ([c7m1, c7m2].getLast?).map entryURL = some "" ∧
    buildMediaLookup [c7m1, c7m2] "a" = some "u" ∧ ("u" : String) ≠ "" := by
  refine ⟨by decide, by decide, by decide, by decide⟩

/-! ## Claim C8 -/

/-- C8, counterexample: the JSON literal null is neither a valid integer
nor a numeric string — the integer-literal grammar and the string
decoder both reject it — yet decoding does not return an error: Go's
json.Unmarshal ignores null for an int target with no error, so the
first branch succeeds and the key 0 is assigned, against the claim's
error-exactly-otherwise and its without-assigning-a-value. -/
theorem c8_flexint_decode_counterexample :
    flexIntUnmarshalJSON "null".data = .ok 0 ∧
    jsonIntLit "null".data = none ∧
    jsonUnmarshalString "null".data = none := by
  exact ⟨rfl, rfl, rfl⟩

/-- C8, amended: FlexInt key decoding succeeds on a bare JSON integer
within the 64-bit int range (3) and on a JSON string whose decoded
contents Atoi accepts (so both "3" and the escape-encoded digit string
decode to key 3); the JSON literal null also decodes, to key 0; every
other input — among them a leading-zero literal, an out-of-range
literal, and a non-numeric string — yields a structured error carrying
no value. -/
theorem c8_flexint_decode_amended :
    flexIntUnmarshalJSON "3".data = .ok 3 ∧
    flexIntUnmarshalJSON "\"3\"".data = .ok 3 ∧
    flexIntUnmarshalJSON "\"\\u0033\"".data = .ok 3 ∧
    (flexIntUnmarshalJSON "03".data).isOk = false ∧
    (flexIntUnmarshalJSON "9223372036854775808".data).isOk = false ∧
    (flexIntUnmarshalJSON "\"x\"".data).isOk = false ∧
    (∀ data, (∃ msg, flexIntUnmarshalJSON data = .error msg) ↔
      flexIntAccepts data = false) := by
  refine ⟨rfl, rfl, rfl, rfl, rfl, rfl, ?_⟩
  intro data
  unfold flexIntUnmarshalJSON flexIntAccepts
  cases h1 : jsonUnmarshalInt data with
  | some i => simp [h1]
  | none =>
    cases h2 : jsonUnmarshalString data with
    | none => simp [h1, h2]
    | some s =>
      cases h3 : atoi s with
      | some n => simp [h1, h2, h3]
      | none => simp [h1, h2, h3]

/-! ## Claim C9 -/

/-- C9 (confirmed): on the spec's round-trip input the HTML pipeline
returns exactly the heading, one blank line, and the emphasised
sentence — in particular the output contains that text. -/
theorem c9_html_roundtrip :
    HTMLToMarkdown "<h2>Title</h2><p>Some <b>bold</b> and <i>italic</i>.</p>" =
      "## Title\n\nSome **bold** and *italic*." ∧
    (∃ a b : List Char,
      (HTMLToMarkdown "<h2>Title</h2><p>Some <b>bold</b> and <i>italic</i>.</p>").data =
        a ++ ("## Title\n\nSome **bold** and *italic*.").data ++ b) := by
  exact ⟨by decide, ⟨[], [], by decide⟩⟩

/-! ## Claim C10 -/

/-- C10 (confirmed): a nil article content or an empty block list renders
as the empty string, for every entity map and every media-entity list —
neither is consulted. -/
theorem c10_empty_content :
    (∀ mediaEntities, DraftJSToMarkdown none mediaEntities = "") ∧
    (∀ entityMap mediaEntities,
      DraftJSToMarkdown (some ⟨[], entityMap⟩) mediaEntities = "") :=
  ⟨fun _ => rfl, fun _ _ => rfl⟩

/-! ## Claim C1 -/

/-- C1, counterexample: on pre content holding a double-escaped entity
and decimal newline references, the protection pass emits the fence
content "a &lt; b" followed by a three-newline run, but the final output
holds "a < b" and a two-newline run: the global entity-decoding pass
decoded the fence text a second time and the whitespace-normalization
pass collapsed the newline run inside the fence. -/
theorem c1_pre_protection_counterexample :
    processPreBlocksL ("<pre>a &amp;lt; b&#10;&#10;&#10;c</pre>").data =
      ("\n\n```\na &lt; b\n\n\nc\n```\n\n").data ∧
    HTMLToMarkdown "<pre>a &amp;lt; b&#10;&#10;&#10;c</pre>" = "```\na < b\n\nc\n```" := by
  exact ⟨by decide, by decide⟩

/-- C1, amended: the protection pass decodes entities and strips tags
inside the pre region itself and emits the fence before the structural
rewrites, but its output enjoys no general immunity from the later
passes: beyond the second entity decode and the newline collapse of the
counterexample, even the tag-stripping pass can re-enter the fence — a
bare angle bracket in the fence pairs with a later closing bracket in
the document and the span between them is deleted. Only a document in
which no such pairing arises, such as the spec's single code-block
input, reaches the output with its fence intact. -/
theorem c1_pre_protection_amended :
    HTMLToMarkdown "<pre><code class=\"language-go\">a &lt; b</code></pre>" =
      "```go\na < b\n```" ∧
    HTMLToMarkdown "<pre>a < b</pre>5 > 3" = "```\na  3" := by
  exact ⟨by decide, by decide⟩

end X2MD
